import Mathlib

/-!
Verification of the Industrial Defect Detection Scanner core
(`src/defect_detector.py`, `src/report_generator.py`).

The detection pipeline from the contour loop onward is embedded as pure
Lean functions over exact rationals.  The OpenCV extraction stage
(cvtColor, GaussianBlur, Canny, dilate, findContours) is third-party
library code that delivers a list of contours; the embedding therefore
quantifies over an arbitrary list of contours, each carrying the
quantities the loop reads off it: `contourArea`, `boundingRect`, and
`arcLength`.  OpenCV drawing primitives (drawContours, rectangle,
putText) mutate only the destination buffer they are handed; they are
modelled as opaque parameters of type `Img → … → Img`, and the two numpy
buffers (`image`, `annotated_image = image.copy()`) are explicit fields
of a loop state, so that the frame property "the input image is never
mutated" is a provable statement about the fold.

Numeric model: Python floats are modelled as exact rationals.  `np.pi`
is a double constant; `np_pi` below is the exact rational value of that
IEEE-754 double.
-/

namespace DefectScanner

/-- Exact rational value of the IEEE-754 double `np.pi`
(884279719003555 · 2⁻⁴⁸). -/
def np_pi : ℚ := 884279719003555 / 281474976710656

/-- A contour as the detection loop observes it: `cv2.contourArea`
(a non-negative float), `cv2.boundingRect` (integer corner, natural
width and height) and `cv2.arcLength` (a non-negative float).  The point
list itself is only passed through to the drawing primitives, so it is
not carried here. -/
structure Contour where
  area_pixels : ℚ
  x : ℤ
  y : ℤ
  w : ℕ
  h : ℕ
  perimeter : ℚ
deriving DecidableEq, Repr

/-- A classified defect record, mirroring the dict built at
`defect_detector.py` lines 82–90 (the raw contour stands in for the
`contour` entry). -/
structure Defect where
  type : String
  area_mm : ℚ
  area_pixels : ℚ
  x : ℤ
  y : ℤ
  w : ℕ
  h : ℕ
  aspect_ratio : ℚ
  circularity : ℚ
  contour : Contour
deriving DecidableEq, Repr

/-- `DefectDetector._classify_defect` (lines 124–158): the six-rule
first-match classifier. -/
def classify_defect (area_mm aspect_ratio circularity : ℚ) : String :=
  if aspect_ratio > 3.0 ∨ aspect_ratio < 0.33 then "Crack"
  else if circularity > 0.7 then "Hole"
  else if circularity < 0.3 then "Irregular Shape"
  else if 10 < area_mm ∧ area_mm < 50 then "Misalignment"
  else if area_mm > 50 then "Large Defect"
  else "Small Defect"

/-- `DefectDetector._get_defect_color` (lines 160–170): dictionary
lookup with a white default. -/
def get_defect_color (defect_type : String) : ℤ × ℤ × ℤ :=
  (List.lookup defect_type
    [("Crack", ((0 : ℤ), (0 : ℤ), (255 : ℤ))),
     ("Hole", (255, 0, 0)),
     ("Irregular Shape", (0, 165, 255)),
     ("Misalignment", (0, 255, 255)),
     ("Large Defect", (255, 0, 255)),
     ("Small Defect", (0, 255, 0))]).getD (255, 255, 255)

/-- Feature computation of the loop body (lines 59–90): area conversion,
aspect ratio with its zero-height fallback, circularity with its
zero-perimeter fallback, then classification.  `piQ` abstracts the
float constant `np.pi` (instantiate with `np_pi` for the concrete
code). -/
def mkDefect (piQ : ℚ) (c : Contour) : Defect :=
  let area_mm := c.area_pixels * 0.1
  let aspect_ratio := if c.h > 0 then (c.w : ℚ) / (c.h : ℚ) else 0
  let circularity :=
    if c.perimeter > 0 then 4 * piQ * c.area_pixels / (c.perimeter * c.perimeter)
    else 0
  { type := classify_defect area_mm aspect_ratio circularity
    area_mm := area_mm
    area_pixels := c.area_pixels
    x := c.x, y := c.y, w := c.w, h := c.h
    aspect_ratio := aspect_ratio
    circularity := circularity
    contour := c }

/-- Python dict update `d[k] = d.get(k, 0) + 1`: an existing key keeps
its position, a new key is appended (insertion order, as Python dicts
guarantee). -/
def dictIncr : List (String × ℕ) → String → List (String × ℕ)
  | [], k => [(k, 1)]
  | (k', v) :: rest, k =>
    if k' = k then (k', v + 1) :: rest else (k', v) :: dictIncr rest k

/-- The `statistics` dict assembled at lines 115–121. -/
structure Statistics where
  total_defects : ℕ
  total_area_mm : ℚ
  defect_types : List (String × ℕ)
  pass : Bool
  fail : Bool
deriving DecidableEq, Repr

/-- Opaque models of the OpenCV drawing primitives used at lines 96–102.
Each takes the destination buffer and returns the updated buffer; their
pixel semantics live in OpenCV and are irrelevant to the claims, so they
are parameters of the embedding. -/
structure DrawOps (Img : Type) where
  drawContours : Img → Contour → ℤ × ℤ × ℤ → Img
  rectangle : Img → (ℤ × ℤ) → (ℤ × ℤ) → ℤ × ℤ × ℤ → Img
  putText : Img → String → (ℤ × ℤ) → ℤ × ℤ × ℤ → Img

/-- The mutable state of the contour loop: the two numpy buffers
(`image`, untouched, and `annotated_image`, the copy being drawn on)
plus the growing `defects` list. -/
structure DetectState (Img : Type) where
  image : Img
  annotated_image : Img
  defects : List Defect

/-- The detector configuration (`min_defect_size`, default 5.0). The
edge thresholds only feed the external Canny stage, so they are not
needed here. -/
structure DetectorConfig where
  min_defect_size : ℚ
deriving DecidableEq, Repr

/-- Format a rational to one decimal place, modelling Python `.1f`
(sign, integer digits, one fractional digit). -/
def fmt1 (q : ℚ) : String :=
  let n : ℤ := round (q * 10)
  let a := n.natAbs
  (if n < 0 then "-" else "") ++ toString (a / 10) ++ "." ++ toString (a % 10)

/-- Format a rational to two decimal places, modelling Python `.2f`
(sign, integer digits, two fractional digits). -/
def fmt2 (q : ℚ) : String :=
  let n : ℤ := round (q * 100)
  let a := n.natAbs
  (if n < 0 then "-" else "") ++ toString (a / 100) ++ "."
    ++ (if a % 100 < 10 then "0" else "") ++ toString (a % 100)

/-- One iteration of the contour loop (lines 57–102): compute the area,
skip the contour when `area_mm < min_defect_size`, otherwise build the
defect record, append it, and draw outline, bounding box and label onto
the annotated buffer only. -/
def detectStep {Img : Type} (cfg : DetectorConfig) (piQ : ℚ) (ops : DrawOps Img)
    (st : DetectState Img) (c : Contour) : DetectState Img :=
  let area_mm := c.area_pixels * 0.1
  if area_mm < cfg.min_defect_size then st
  else
    let d := mkDefect piQ c
    let color := get_defect_color d.type
    let a1 := ops.drawContours st.annotated_image c color
    let a2 := ops.rectangle a1 (c.x, c.y) (c.x + c.w, c.y + c.h) color
    let label := d.type ++ ": " ++ fmt1 d.area_mm ++ "mm²"
    let a3 := ops.putText a2 label (c.x, c.y - 10) color
    { image := st.image, annotated_image := a3, defects := st.defects ++ [d] }

/-- Run the contour loop from the initial state
`(image, annotated_image = image.copy(), defects = [])`. -/
def runDetect {Img : Type} (cfg : DetectorConfig) (piQ : ℚ) (ops : DrawOps Img)
    (image : Img) (contours : List Contour) : DetectState Img :=
  contours.foldl (detectStep cfg piQ ops)
    { image := image, annotated_image := image, defects := [] }

/-- The detection result dict (lines 112–122). -/
structure DetectResult (Img : Type) where
  defects : List Defect
  annotated_image : Img
  statistics : Statistics

/-- `DefectDetector.detect_defects` from the contour list onward
(lines 53–122): the filtering/classification/annotation loop followed by
the statistics block (lines 104–110). -/
def detect_defects {Img : Type} (cfg : DetectorConfig) (piQ : ℚ) (ops : DrawOps Img)
    (image : Img) (contours : List Contour) : DetectResult Img :=
  let st := runDetect cfg piQ ops image contours
  let total_defects := st.defects.length
  let total_area := (st.defects.map (fun d => d.area_mm)).sum
  let defect_types := st.defects.foldl (fun m d => dictIncr m d.type) []
  { defects := st.defects
    annotated_image := st.annotated_image
    statistics :=
      { total_defects := total_defects
        total_area_mm := total_area
        defect_types := defect_types
        pass := total_defects == 0
        fail := decide (total_defects > 0) } }

/-- The loop's keep condition: the negation of the skip test
`area_mm < min_defect_size` at line 63. -/
def keepContour (cfg : DetectorConfig) (c : Contour) : Bool :=
  !decide (c.area_pixels * 0.1 < cfg.min_defect_size)

/-- A trivial image type and drawing operations, used to instantiate the
embedding on concrete inputs. -/
def unitOps : DrawOps Unit where
  drawContours := fun i _ _ => i
  rectangle := fun i _ _ _ => i
  putText := fun i _ _ _ => i

/-- A concrete contour whose area (50 px² = 5.0 mm²) sits exactly on the
default size threshold. -/
def sampleContour : Contour :=
  { area_pixels := 50, x := 2, y := 3, w := 5, h := 5, perimeter := 30 }

/-- A degenerate contour with zero bounding-box height and zero
perimeter. -/
def degenerateContour : Contour :=
  { area_pixels := 3, x := 0, y := 0, w := 4, h := 0, perimeter := 0 }

/-- A contour with zero perimeter but a square bounding box, whose
classification (circularity fallback 0, rule 3) is "Irregular Shape". -/
def flatContour : Contour :=
  { area_pixels := 50, x := 0, y := 0, w := 5, h := 5, perimeter := 0 }

/-- A fully explicit defect record, used to evaluate the report-row
layout on a concrete input. -/
def sampleDefect : Defect :=
  ⟨"Crack", 5, 50, 2, 3, 5, 5, 1, 0, sampleContour⟩

/-- The distinct elements of a list in first-seen order (the insertion
order of Python dict keys). -/
def firstSeen : List String → List String
  | [] => []
  | a :: l => a :: firstSeen (l.filter (fun b => !decide (b = a)))
termination_by l => l.length
decreasing_by
  simp only [List.length_cons]
  exact Nat.lt_succ_of_le (List.length_filter_le _ l)

/-- Python `d.get(k, 0)` on the association-list dict model. -/
def getCount : List (String × ℕ) → String → ℕ
  | [], _ => 0
  | (k', v) :: rest, k => if k' = k then v else getCount rest k

/-- One data row of the detailed defect list
(`report_generator.py` lines 76–86): the loop body over
`enumerate(defects, 1)`. -/
def reportRow (i : ℕ) (d : Defect) : List String :=
  [toString i, d.type, fmt2 d.area_mm, fmt2 d.area_pixels,
   toString d.x, toString d.y, toString d.w, toString d.h,
   fmt2 d.aspect_ratio, fmt2 d.circularity]

/-- The column-header row of the detailed defect list (lines 71–74). -/
def detailedHeader : List String :=
  ["ID", "Type", "Area (mm²)", "Area (pixels)",
   "X", "Y", "Width", "Height", "Aspect Ratio", "Circularity"]

/-- The data rows of the detailed defect list, one per defect in
`defects` order, IDs starting at 1. -/
def detailedRows (ds : List Defect) : List (List String) :=
  (List.enumFrom 1 ds).map (fun p => reportRow p.1 p.2)

theorem detectStep_image {Img : Type} (cfg : DetectorConfig) (piQ : ℚ)
    (ops : DrawOps Img) (st : DetectState Img) (c : Contour) :
    (detectStep cfg piQ ops st c).image = st.image := by
  simp only [detectStep]
  split <;> rfl

theorem foldl_detectStep_image {Img : Type} (cfg : DetectorConfig) (piQ : ℚ)
    (ops : DrawOps Img) (l : List Contour) :
    ∀ st : DetectState Img, (l.foldl (detectStep cfg piQ ops) st).image = st.image := by
  induction l with
  | nil => intro st; rfl
  | cons c l ih =>
    intro st
    rw [List.foldl_cons, ih, detectStep_image]

theorem foldl_detectStep_defects {Img : Type} (cfg : DetectorConfig) (piQ : ℚ)
    (ops : DrawOps Img) (l : List Contour) :
    ∀ st : DetectState Img,
      (l.foldl (detectStep cfg piQ ops) st).defects
        = st.defects ++ (l.filter (keepContour cfg)).map (mkDefect piQ) := by
  induction l with
  | nil => intro st; simp
  | cons c l ih =>
    intro st
    rw [List.foldl_cons, ih]
    by_cases hc : c.area_pixels * 0.1 < cfg.min_defect_size
    · have hstep : detectStep cfg piQ ops st c = st := by
        unfold detectStep
        rw [if_pos hc]
      have hk : keepContour cfg c = false := by
        simp [keepContour, hc]
      simp [hstep, List.filter_cons, hk]
    · have hd : (detectStep cfg piQ ops st c).defects = st.defects ++ [mkDefect piQ c] := by
        unfold detectStep
        rw [if_neg hc]
      have hk : keepContour cfg c = true := by
        simp [keepContour, hc]
      simp [hd, List.filter_cons, hk]

theorem detect_defects_defects_eq {Img : Type} (cfg : DetectorConfig) (piQ : ℚ)
    (ops : DrawOps Img) (image : Img) (l : List Contour) :
    (detect_defects cfg piQ ops image l).defects
      = (l.filter (keepContour cfg)).map (mkDefect piQ) := by
  show (runDetect cfg piQ ops image l).defects = _
  unfold runDetect
  rw [foldl_detectStep_defects]
  rfl

end DefectScanner

/-! ## Classifier theorems -/

namespace DefectScanner

/-- C1: the classifier evaluates the six rules in the fixed order, first
match winning; in particular any region satisfying rule 1 is a Crack
regardless of its circularity. -/
theorem classify_defect_rule_order (a ar c : ℚ) :
    ((ar > 3.0 ∨ ar < 0.33) → classify_defect a ar c = "Crack")
    ∧ (¬(ar > 3.0 ∨ ar < 0.33) → c > 0.7 → classify_defect a ar c = "Hole")
    ∧ (¬(ar > 3.0 ∨ ar < 0.33) → ¬(c > 0.7) → c < 0.3 →
        classify_defect a ar c = "Irregular Shape")
    ∧ (¬(ar > 3.0 ∨ ar < 0.33) → ¬(c > 0.7) → ¬(c < 0.3) → (10 < a ∧ a < 50) →
        classify_defect a ar c = "Misalignment")
    ∧ (¬(ar > 3.0 ∨ ar < 0.33) → ¬(c > 0.7) → ¬(c < 0.3) → ¬(10 < a ∧ a < 50) →
        a > 50 → classify_defect a ar c = "Large Defect")
    ∧ (¬(ar > 3.0 ∨ ar < 0.33) → ¬(c > 0.7) → ¬(c < 0.3) → ¬(10 < a ∧ a < 50) →
        ¬(a > 50) → classify_defect a ar c = "Small Defect") := by
  refine ⟨?_, ?_, ?_, ?_, ?_, ?_⟩ <;>
    intros <;> unfold classify_defect <;> split_ifs <;> rfl

/-- C1 witness: a synthetic region with aspect ratio 5.0 and circularity
0.9 satisfies both rule 1 and rule 2 and is classified Crack, never
Hole. -/
theorem classify_defect_rule_order_witness :
    classify_defect 20 5.0 0.9 = "Crack" :=
  (classify_defect_rule_order 20 5.0 0.9).1 (by norm_num)

/-- C10: for a region failing rules 1–3, the boundary areas 50 and 10
both fall through the strict Misalignment range `10 < area < 50` and the
strict LargeDefect test `area > 50`, landing on SmallDefect. -/
theorem classify_defect_area_boundaries (ar c : ℚ)
    (h1 : 0.33 ≤ ar) (h2 : ar ≤ 3.0) (h3 : 0.3 ≤ c) (h4 : c ≤ 0.7) :
    classify_defect 50 ar c = "Small Defect"
    ∧ classify_defect 10 ar c = "Small Defect" := by
  have r1 : ¬(ar > 3.0 ∨ ar < 0.33) := by
    push_neg
    exact ⟨h2, h1⟩
  have r2 : ¬(c > 0.7) := not_lt.mpr h4
  have r3 : ¬(c < 0.3) := not_lt.mpr h3
  constructor <;> (simp only [classify_defect, if_neg r1, if_neg r2, if_neg r3]) <;>
    norm_num

/-- C10 witness: a concrete region with aspect ratio 1 and circularity
0.5 and area exactly 50 (resp. 10) classifies as SmallDefect. -/
theorem classify_defect_area_boundaries_witness :
    classify_defect 50 1 0.5 = "Small Defect"
    ∧ classify_defect 10 1 0.5 = "Small Defect" :=
  classify_defect_area_boundaries 1 0.5 (by norm_num) (by norm_num)
    (by norm_num) (by norm_num)

end DefectScanner

/-! ## Pipeline theorems -/

namespace DefectScanner

/-- C2: every defect in the returned `defects` sequence has
`area_mm = area_pixels * 0.1` at least the configured minimum (the skip
test is a strict `<`), and any contour whose area is not strictly below
the threshold — in particular one exactly at the threshold — is kept. -/
theorem detect_defects_min_size {Img : Type} (cfg : DetectorConfig) (piQ : ℚ)
    (ops : DrawOps Img) (image : Img) (l : List Contour) :
    (∀ d ∈ (detect_defects cfg piQ ops image l).defects,
        cfg.min_defect_size ≤ d.area_mm ∧ d.area_mm = d.area_pixels * 0.1)
    ∧ ∀ c ∈ l, ¬(c.area_pixels * 0.1 < cfg.min_defect_size) →
        mkDefect piQ c ∈ (detect_defects cfg piQ ops image l).defects := by
  constructor
  · intro d hd
    rw [detect_defects_defects_eq] at hd
    obtain ⟨c, hc, rfl⟩ := List.mem_map.mp hd
    obtain ⟨hcl, hkeep⟩ := List.mem_filter.mp hc
    have hlt : ¬(c.area_pixels * 0.1 < cfg.min_defect_size) := by
      simpa [keepContour] using hkeep
    exact ⟨not_lt.mp hlt, rfl⟩
  · intro c hc hge
    rw [detect_defects_defects_eq]
    exact List.mem_map_of_mem _
      (List.mem_filter.mpr ⟨hc, by simp [keepContour, hge]⟩)

/-- C2 witness: with the default threshold 5.0, a contour of exactly
50 px² (area_mm = 5.0, the boundary case) is kept, and its recorded
area meets the threshold. -/
theorem detect_defects_min_size_witness :
    mkDefect np_pi sampleContour
        ∈ (detect_defects ⟨5⟩ np_pi unitOps () [sampleContour]).defects
    ∧ (5 : ℚ) ≤ (mkDefect np_pi sampleContour).area_mm := by
  have h := detect_defects_min_size ⟨5⟩ np_pi unitOps () [sampleContour]
  have hm := h.2 sampleContour (List.mem_singleton.mpr rfl) (by norm_num [sampleContour])
  exact ⟨hm, (h.1 _ hm).1⟩

/-- C4: `pass` holds exactly when `total_defects` is zero, `fail`
exactly when it is positive, and the two are always complementary. -/
theorem detect_defects_pass_fail {Img : Type} (cfg : DetectorConfig) (piQ : ℚ)
    (ops : DrawOps Img) (image : Img) (l : List Contour) :
    ((detect_defects cfg piQ ops image l).statistics.pass = true
        ↔ (detect_defects cfg piQ ops image l).statistics.total_defects = 0)
    ∧ ((detect_defects cfg piQ ops image l).statistics.fail = true
        ↔ 0 < (detect_defects cfg piQ ops image l).statistics.total_defects)
    ∧ (detect_defects cfg piQ ops image l).statistics.pass
        = !(detect_defects cfg piQ ops image l).statistics.fail := by
  show (((runDetect cfg piQ ops image l).defects.length == 0) = true
        ↔ (runDetect cfg piQ ops image l).defects.length = 0)
    ∧ (decide ((runDetect cfg piQ ops image l).defects.length > 0) = true
        ↔ 0 < (runDetect cfg piQ ops image l).defects.length)
    ∧ (((runDetect cfg piQ ops image l).defects.length == 0)
        = !decide ((runDetect cfg piQ ops image l).defects.length > 0))
  cases (runDetect cfg piQ ops image l).defects.length <;> simp

/-- C5: `total_area_mm` is the sum of `area_mm` over the returned
defects. -/
theorem detect_defects_total_area {Img : Type} (cfg : DetectorConfig) (piQ : ℚ)
    (ops : DrawOps Img) (image : Img) (l : List Contour) :
    (detect_defects cfg piQ ops image l).statistics.total_area_mm
      = ((detect_defects cfg piQ ops image l).defects.map (fun d => d.area_mm)).sum :=
  rfl

/-- C8: the input image buffer is never written by the detection loop —
every drawing call targets the copy, which is returned as
`annotated_image`. -/
theorem detect_defects_input_unmutated {Img : Type} (cfg : DetectorConfig) (piQ : ℚ)
    (ops : DrawOps Img) (image : Img) (l : List Contour) :
    (runDetect cfg piQ ops image l).image = image
    ∧ (detect_defects cfg piQ ops image l).annotated_image
        = (runDetect cfg piQ ops image l).annotated_image :=
  ⟨foldl_detectStep_image cfg piQ ops l _, rfl⟩

end DefectScanner

/-! ## Dictionary-aggregation lemmas -/

namespace DefectScanner

theorem dictIncr_keys (m : List (String × ℕ)) (k : String) :
    (dictIncr m k).map Prod.fst
      = if k ∈ m.map Prod.fst then m.map Prod.fst else m.map Prod.fst ++ [k] := by
  induction m with
  | nil => simp [dictIncr]
  | cons p m ih =>
    obtain ⟨a, v⟩ := p
    by_cases h : a = k
    · subst h
      simp [dictIncr]
    · have hne : ¬k = a := fun hk => h hk.symm
      by_cases hk : k ∈ m.map Prod.fst <;>
        simp [dictIncr, h, hne, hk, ih]

theorem dictIncr_sum (m : List (String × ℕ)) (k : String) :
    ((dictIncr m k).map Prod.snd).sum = (m.map Prod.snd).sum + 1 := by
  induction m with
  | nil => simp [dictIncr]
  | cons p m ih =>
    obtain ⟨a, v⟩ := p
    by_cases h : a = k <;> simp [dictIncr, h, ih] <;> omega

theorem dictIncr_getCount (m : List (String × ℕ)) (k k' : String) :
    getCount (dictIncr m k) k' = getCount m k' + (if k' = k then 1 else 0) := by
  induction m with
  | nil =>
    by_cases h : k = k'
    · subst h; simp [dictIncr, getCount]
    · have hne : ¬k' = k := fun hk => h hk.symm
      simp [dictIncr, getCount, h, hne]
  | cons p m ih =>
    obtain ⟨a, v⟩ := p
    by_cases hak : a = k
    · subst hak
      by_cases h' : a = k'
      · subst h'; simp [dictIncr, getCount]
      · have hne : ¬k' = a := fun hk => h' hk.symm
        simp [dictIncr, getCount, h', hne]
    · by_cases h' : a = k'
      · subst h'
        have hka : ¬k = a := fun hk => hak hk.symm
        simp [dictIncr, getCount, hak, hka]
      · simp [dictIncr, getCount, hak, h', ih]

theorem getCount_eq_of_mem (m : List (String × ℕ)) (hnd : (m.map Prod.fst).Nodup)
    (k : String) (n : ℕ) (hm : (k, n) ∈ m) : getCount m k = n := by
  induction m with
  | nil => cases hm
  | cons p m ih =>
    obtain ⟨a, v⟩ := p
    simp only [List.map_cons, List.nodup_cons] at hnd
    rcases List.mem_cons.mp hm with he | hm'
    · cases he
      simp [getCount]
    · have hk : ¬a = k := by
        intro h
        subst h
        exact hnd.1 (List.mem_map.mpr ⟨(a, n), hm', rfl⟩)
      simp [getCount, hk, ih hnd.2 hm']

theorem mem_of_mem_firstSeen :
    ∀ (l : List String) (x : String), x ∈ firstSeen l → x ∈ l := by
  intro l
  induction l using firstSeen.induct with
  | case1 =>
    intro x hx
    rw [firstSeen] at hx
    cases hx
  | case2 a l ih =>
    intro x hx
    rw [firstSeen] at hx
    rcases List.mem_cons.mp hx with h | h
    · exact h ▸ List.mem_cons_self a l
    · exact List.mem_cons_of_mem a (List.mem_of_mem_filter (ih x h))

theorem firstSeen_nodup : ∀ l : List String, (firstSeen l).Nodup := by
  intro l
  induction l using firstSeen.induct with
  | case1 => rw [firstSeen]; exact List.nodup_nil
  | case2 a l ih =>
    rw [firstSeen]
    refine List.nodup_cons.mpr ⟨fun ha => ?_, ih⟩
    have := List.of_mem_filter (mem_of_mem_firstSeen _ a ha)
    simp at this

end DefectScanner

namespace DefectScanner

theorem foldl_dictIncr_getCount (ks : List String) :
    ∀ (m : List (String × ℕ)) (k : String),
      getCount (ks.foldl dictIncr m) k = getCount m k + ks.count k := by
  induction ks with
  | nil => intro m k; simp
  | cons a ks ih =>
    intro m k
    rw [List.foldl_cons, ih, dictIncr_getCount, List.count_cons]
    by_cases h : k = a
    · subst h
      simp
      omega
    · have h' : ¬a = k := fun ha => h ha.symm
      simp [h, h']

theorem foldl_dictIncr_sum (ks : List String) :
    ∀ m : List (String × ℕ),
      ((ks.foldl dictIncr m).map Prod.snd).sum = (m.map Prod.snd).sum + ks.length := by
  induction ks with
  | nil => intro m; simp
  | cons a ks ih =>
    intro m
    rw [List.foldl_cons, ih, dictIncr_sum, List.length_cons]
    omega

theorem foldl_dictIncr_keys (ks : List String) :
    ∀ m : List (String × ℕ),
      (ks.foldl dictIncr m).map Prod.fst
        = m.map Prod.fst ++ firstSeen (ks.filter (fun x => !decide (x ∈ m.map Prod.fst))) := by
  induction ks with
  | nil =>
    intro m
    rw [List.filter_nil, firstSeen]
    simp
  | cons a ks ih =>
    intro m
    rw [List.foldl_cons, ih, dictIncr_keys]
    by_cases ha : a ∈ m.map Prod.fst
    · rw [if_pos ha, List.filter_cons_of_neg (by simp [ha])]
    · rw [if_neg ha, List.filter_cons_of_pos (by simp [ha]), firstSeen,
        List.filter_filter]
      have hpred : ∀ x ∈ ks,
          (!decide (x ∈ m.map Prod.fst ++ [a]))
            = ((!decide (x = a)) && (!decide (x ∈ m.map Prod.fst))) := by
        intro x _
        by_cases h1 : x = a <;> by_cases h2 : x ∈ m.map Prod.fst <;> simp [h1, h2]
      rw [List.filter_congr hpred]
      simp

theorem foldl_dictIncr_keys_nil (ks : List String) :
    (ks.foldl dictIncr []).map Prod.fst = firstSeen ks := by
  have h := foldl_dictIncr_keys ks []
  simpa using h

/-- C6: `defect_types` lists exactly the distinct categories of
`defects` in first-seen order, each mapped to the number of defects of
that category, and the counts sum to `total_defects`. -/
theorem detect_defects_defect_types {Img : Type} (cfg : DetectorConfig) (piQ : ℚ)
    (ops : DrawOps Img) (image : Img) (l : List Contour) :
    ((detect_defects cfg piQ ops image l).statistics.defect_types.map Prod.fst
        = firstSeen ((detect_defects cfg piQ ops image l).defects.map (fun d => d.type)))
    ∧ (∀ k n, (k, n) ∈ (detect_defects cfg piQ ops image l).statistics.defect_types →
        n = ((detect_defects cfg piQ ops image l).defects.map (fun d => d.type)).count k)
    ∧ (((detect_defects cfg piQ ops image l).statistics.defect_types.map Prod.snd).sum
        = (detect_defects cfg piQ ops image l).statistics.total_defects) := by
  have hdt : (detect_defects cfg piQ ops image l).statistics.defect_types
      = ((runDetect cfg piQ ops image l).defects.map (fun d => d.type)).foldl dictIncr [] := by
    show (runDetect cfg piQ ops image l).defects.foldl (fun m d => dictIncr m d.type) [] = _
    rw [List.foldl_map]
  have hds : (detect_defects cfg piQ ops image l).defects
      = (runDetect cfg piQ ops image l).defects := rfl
  have htd : (detect_defects cfg piQ ops image l).statistics.total_defects
      = (runDetect cfg piQ ops image l).defects.length := rfl
  refine ⟨?_, ?_, ?_⟩
  · rw [hdt, hds, foldl_dictIncr_keys_nil]
  · intro k n hm
    rw [hdt] at hm
    have hnd : (((((runDetect cfg piQ ops image l).defects.map
        (fun d => d.type))).foldl dictIncr []).map Prod.fst).Nodup := by
      rw [foldl_dictIncr_keys_nil]
      exact firstSeen_nodup _
    have hg := getCount_eq_of_mem _ hnd k n hm
    rw [foldl_dictIncr_getCount] at hg
    rw [hds]
    simpa [getCount] using hg.symm
  · rw [hdt, htd, foldl_dictIncr_sum]
    simp

/-- C6 witness: two identical kept contours with zero perimeter classify
as Irregular Shape twice, and the count recorded for that key is 2. -/
theorem detect_defects_defect_types_witness :
    (2 : ℕ) = (((detect_defects ⟨5⟩ np_pi unitOps () [flatContour, flatContour]).defects.map
        (fun d => d.type)).count "Irregular Shape") := by
  refine (detect_defects_defect_types ⟨5⟩ np_pi unitOps ()
    [flatContour, flatContour]).2.1 "Irregular Shape" 2 ?_
  norm_num [detect_defects, runDetect, detectStep, mkDefect, classify_defect,
    get_defect_color, flatContour, dictIncr, keepContour]

end DefectScanner

namespace DefectScanner

/-- C7: degenerate geometry gets the fallback values instead of an
error: aspect ratio is `w / h` for positive height and 0 for zero
height; circularity is `4·pi·area_px / perimeter²` for positive
perimeter and 0 otherwise. -/
theorem mkDefect_degenerate_fallback (piQ : ℚ) (c : Contour) :
    (c.h = 0 → (mkDefect piQ c).aspect_ratio = 0)
    ∧ (0 < c.h → (mkDefect piQ c).aspect_ratio = (c.w : ℚ) / (c.h : ℚ))
    ∧ (¬(0 < c.perimeter) → (mkDefect piQ c).circularity = 0)
    ∧ (0 < c.perimeter →
        (mkDefect piQ c).circularity
          = 4 * piQ * c.area_pixels / (c.perimeter * c.perimeter)) := by
  refine ⟨fun h => ?_, fun h => ?_, fun h => ?_, fun h => ?_⟩ <;>
    simp [mkDefect, h]

/-- C7 witness: a contour with zero height and zero perimeter yields
aspect ratio 0 and circularity 0. -/
theorem mkDefect_degenerate_fallback_witness :
    (mkDefect np_pi degenerateContour).aspect_ratio = 0
    ∧ (mkDefect np_pi degenerateContour).circularity = 0 := by
  have h := mkDefect_degenerate_fallback np_pi degenerateContour
  exact ⟨h.1 rfl, h.2.2.1 (by norm_num [degenerateContour])⟩

/-- C9: the detailed table holds exactly one row per defect, in
`defects` order, with 1-based IDs and columns ID, Type, Area (mm²),
Area (pixels), X, Y, Width, Height, Aspect Ratio, Circularity, the
area, aspect-ratio and circularity cells rendered to two decimals. -/
theorem report_detailed_table (ds : List Defect) :
    (detailedRows ds).length = ds.length
    ∧ ∀ (i : ℕ) (d : Defect), ds[i]? = some d →
        (detailedRows ds)[i]?
          = some [toString (i + 1), d.type, fmt2 d.area_mm, fmt2 d.area_pixels,
              toString d.x, toString d.y, toString d.w, toString d.h,
              fmt2 d.aspect_ratio, fmt2 d.circularity] := by
  constructor
  · simp [detailedRows]
  · intro i d hd
    simp [detailedRows, List.getElem?_enumFrom, hd, reportRow, Nat.add_comm]

/-- C9 witness: the single row produced for a concrete defect record,
with every cell fully evaluated. -/
theorem report_detailed_table_witness :
    (detailedRows [sampleDefect])[0]?
      = some ["1", "Crack", "5.00", "50.00", "2", "3", "5", "5", "1.00", "0.00"] := by
  have h := (report_detailed_table [sampleDefect]).2 0 sampleDefect rfl
  rw [h]
  norm_num [sampleDefect, fmt2, round_eq]
  refine ⟨rfl, rfl, rfl, rfl, rfl, rfl, rfl, rfl⟩

end DefectScanner
